import Mathlib

/-!
Shallow embedding of the serverPKI certificate lifecycle code
(src/serverPKI/cert.py, src/pki/certdist.py, src/pki/issue_LE.py)
with theorems checking the natural-language specification against it.

Conventions:
* datetime values are modelled as integers (the code only compares them);
* an FQDN is modelled by its list of dot-separated labels, i.e. the result
  of Python's `fqdn.split('.')`;
* the local filesystem test `(zone_file_root / zone).exists()` is modelled
  by a boolean predicate on zone names;
* Python optional values are `Option`; Python truthiness of an optional
  bool is explicit (`pythonBoolOrElse`).

All definitions are in the first part of the file, all theorems in the
second.
-/

namespace ServerPKI

/-- `CertState` values, from class CertState in serverPKI/cert.py. -/
inductive CertState
  | reserved | issued | prepublished | deployed | revoked | expired | archived
  deriving DecidableEq, Repr

/-- `CertType` values (`'LE'` and `'local'`), from class CertType in
serverPKI/cert.py.  `local` is a Lean keyword, hence `loc`. -/
inductive CertType
  | LE | loc
  deriving DecidableEq, Repr

/-- `EncAlgoCKS` values, from serverPKI/cert.py. -/
inductive EncAlgoCKS
  | rsa | ec
  deriving DecidableEq, Repr

/-- The fields of class CertInstance (serverPKI/cert.py) that its
`active` property reads: the validity window. -/
structure CertInstanceTimes where
  not_before : Int
  not_after : Int
  deriving DecidableEq, Repr

/-- Embedding of property `CertInstance.active` (serverPKI/cert.py lines 875-885):
`if (self.not_before < datetime.datetime.now() and
     self.not_after > datetime.datetime.now()): return True else: return False`.
The current time is passed explicitly. -/
def CertInstanceTimes.active (ci : CertInstanceTimes) (now : Int) : Bool :=
  ci.not_before < now && ci.not_after > now

/-- Python's `x if x else y` for an optional bool `x`: only `True` is truthy. -/
def pythonBoolOrElse (x : Option Bool) (fallback : Bool) : Bool :=
  match x with
  | some true => true
  | some false => fallback
  | none => fallback

/-- The fields of a cert meta (class Certificate, serverPKI/cert.py) that
`create_instance` reads for the ocsp logic. -/
structure CertMetaOcsp where
  ocsp_must_staple : Bool
  deriving DecidableEq, Repr

/-- Embedding of `CertInstance.__init__`'s ocsp handling
(serverPKI/cert.py line 719):
`self.ocsp_ms = ocsp_ms if ocsp_ms else cert_meta.ocsp_must_staple`. -/
def CertInstance_init_ocsp (cert_meta : CertMetaOcsp) (ocsp_ms : Option Bool) : Bool :=
  pythonBoolOrElse ocsp_ms cert_meta.ocsp_must_staple

/-- Embedding of `Certificate.create_instance`'s ocsp computation
(serverPKI/cert.py lines 403-421):
`the_ocsp_ms = ocsp_ms if ocsp_ms else self.ocsp_must_staple` and the
computed value is passed on to `CertInstance.__init__`, which applies the
same falsy-fallback again. -/
def create_instance_ocsp (cm : CertMetaOcsp) (ocsp_ms : Option Bool) : Bool :=
  let the_ocsp_ms := pythonBoolOrElse ocsp_ms cm.ocsp_must_staple
  CertInstance_init_ocsp cm (some the_ocsp_ms)

/-! ## Zone publisher: `Certificate.zone_and_FQDN_from_altnames`
(serverPKI/cert.py lines 501-519) -/

/-- `'.'.join(tags)`. -/
def joinLabels (tags : List String) : String := String.intercalate "." tags

/-- The suffixes tried by the loop
`for i in range(1, len(fqdn_tags) + 1): zone = '.'.join(fqdn_tags[-i::])`,
in source order (shortest suffix first): element `k` is
`'.'.join(tags[-(k+1):])`. -/
def suffixZones (fqdn_tags : List String) : List String :=
  (List.range fqdn_tags.length).map
    (fun k => joinLabels (fqdn_tags.drop (fqdn_tags.length - (k + 1))))

/-- Inner loop of `zone_and_FQDN_from_altnames`: the first suffix (in the
shortest-first order of `suffixZones`) for which
`(Path(Pathes.zone_file_root) / zone).exists()`; the filesystem test is the
parameter `ex`.  `none` when no suffix exists (then the loop appends
nothing for this fqdn). -/
def zoneOf (ex : String → Bool) (fqdn_tags : List String) : Option String :=
  (suffixZones fqdn_tags).find? ex

/-- Embedding of `Certificate.zone_and_FQDN_from_altnames`
(serverPKI/cert.py lines 501-519): walks `[name] ++ altnames` (each fqdn
given by its labels) and emits `(zone, fqdn)` for the first existing
suffix, skipping fqdns with no existing suffix. -/
def zone_and_FQDN_from_altnames (ex : String → Bool)
    (name : List String) (altnames : List (List String)) : List (String × String) :=
  (name :: altnames).filterMap
    (fun tags => (zoneOf ex tags).map (fun z => (z, joinLabels tags)))

/-- Concrete filesystem for the C4 counterexample: zones `c` and `b.c` exist. -/
def exC4 : String → Bool := fun z => z == "c" || z == "b.c"

/-- Concrete filesystem for the C4 witness: only zone `c` exists. -/
def exC4w : String → Bool := fun z => z == "c"

/-! ## CertKeyStore identity map (serverPKI/cert.py lines 929-1030) -/

/-- An x509 certificate object of the cryptography library, identified by
its DER encoding (a byte list).  `cert.fingerprint(SHA256())` is the SHA-256
digest of these bytes; the digest function itself is external and is passed
as a parameter `sha256` below. -/
structure X509Cert where
  der : List Nat
  deriving DecidableEq, Repr

/-- One hex digit, uppercase (values 0-15 to `0`-`9`, `A`-`F`). -/
def hexDigitUpper (n : Nat) : Char :=
  if n < 10 then Char.ofNat (48 + n) else Char.ofNat (55 + n)

/-- One byte as two uppercase hex digits. -/
def hexByteUpper (b : Nat) : String :=
  String.mk [hexDigitUpper (b / 16 % 16), hexDigitUpper (b % 16)]

/-- `binascii.hexlify(..).decode('ascii').upper()`: a byte list as an
uppercase hex string. -/
def hexlifyUpper (bs : List Nat) : String :=
  String.join (bs.map hexByteUpper)

/-- Embedding of `CertKeyStore.hash_from_cert` (serverPKI/cert.py lines
937-949): the uppercase hex SHA-256 fingerprint of the DER cert.  `sha256`
is the external digest function. -/
def hash_from_cert (sha256 : List Nat → List Nat) (cert : X509Cert) : String :=
  hexlifyUpper (sha256 cert.der)

/-- A CertKeyStore object.  Of the Python object's attributes, those the C6
claim mentions are kept: `algo`, the certificate and `hash`; `row_id`, the
key material and the back reference `ci` do not enter the claim. -/
structure CertKeyStore where
  algo : EncAlgoCKS
  cert : X509Cert
  hash : String
  deriving DecidableEq, Repr

/-- The module-level identity map `CertKeyStore._cert_key_stores`
(serverPKI/cert.py line 935), keyed by hash. -/
abbrev CKSRegistry := List (String × CertKeyStore)

/-- Embedding of `CertKeyStore.__init__` (serverPKI/cert.py lines 982-1030):
the hash is recomputed from the cert (line 1005, overwriting any passed-in
hash); a duplicate hash raises AssertionError (modelled as `.error`);
otherwise the new object is entered into the identity map. -/
def CertKeyStore_init (sha256 : List Nat → List Nat) (reg : CKSRegistry)
    (algo : EncAlgoCKS) (cert : X509Cert) : Except String (CertKeyStore × CKSRegistry) :=
  let hash := hash_from_cert sha256 cert
  if reg.any (fun p => p.1 == hash) then
    Except.error "Attempt to create duplicate CertKeyStore"
  else
    let cks : CertKeyStore := ⟨algo, cert, hash⟩
    Except.ok (cks, (hash, cks) :: reg)

/-- Invariant of the CertKeyStore identity map: at most one entry per hash,
every entry is keyed by its object's hash, and every object's hash is the
fingerprint of its certificate. -/
def CKSRegInv (sha256 : List Nat → List Nat) (reg : CKSRegistry) : Prop :=
  (reg.map Prod.fst).Nodup ∧
  ∀ p ∈ reg, p.2.hash = p.1 ∧ p.2.hash = hash_from_cert sha256 p.2.cert

/-! ## Certificate (cert meta) identity map (serverPKI/cert.py lines 175-308) -/

/-- A Certificate (cert meta) object as far as the C8 claim sees it: its
name and its Python object identity, modelled by an allocation number. -/
structure Certificate where
  name : String
  objId : Nat
  deriving DecidableEq, Repr

/-- The module-level identity map `_all_CMs` (serverPKI/cert.py line 175)
together with the allocator of object identities. -/
structure CMRegistry where
  all_CMs : List (String × Certificate)
  nextId : Nat
  deriving DecidableEq, Repr

/-- Embedding of `Certificate.__init__` (serverPKI/cert.py lines 293-308):
`if name in _all_CMs: raise AssertionError(...)`, else the new object
registers itself under its name. -/
def Certificate_init (st : CMRegistry) (name : String) :
    Except String (Certificate × CMRegistry) :=
  if (st.all_CMs.find? (fun p => p.1 == name)).isSome then
    Except.error "Attempt to instantiate Certificate instance twice"
  else
    let c : Certificate := ⟨name, st.nextId⟩
    Except.ok (c, ⟨(name, c) :: st.all_CMs, st.nextId + 1⟩)

/-- Embedding of the factory `CM` (serverPKI/cert.py lines 177-186):
`if name in _all_CMs: return _all_CMs[name]; return Certificate(db, name)`. -/
def CM (st : CMRegistry) (name : String) : Except String (Certificate × CMRegistry) :=
  match st.all_CMs.find? (fun p => p.1 == name) with
  | some p => Except.ok (p.2, st)
  | none => Certificate_init st name

/-- Invariant of the cert meta identity map: at most one entry per name and
every entry is keyed by its object's name. -/
def CMRegInv (st : CMRegistry) : Prop :=
  (st.all_CMs.map Prod.fst).Nodup ∧ ∀ p ∈ st.all_CMs, p.2.name = p.1

/-! ## Distribution engine: `deployCerts` (pki/certdist.py lines 31-155)

The engine runs under the local-DNS-master configuration (the remote-master
branch of `distribute_tlsa_rrs` exits the process and is explicitly
unsupported).  SSH/SFTP transfers are modelled by `upload` events; the
claims under verification concern which files are produced, the TLSA step,
the state transition and `authorized_until`, not the transport. -/

/-- `place.cert_file_type` values, from class PlaceCertFileType. -/
inductive PlaceCertFileType
  | certOnly | separate | combineKey | combineCacert | combineBoth
  deriving DecidableEq, Repr

/-- A deployment place (class Place, pki side) as read by `deployCerts`:
`key_path = none` models a Python-falsy `key_path` (None or empty). -/
structure Place where
  name : String
  cert_file_type : PlaceCertFileType
  cert_path : String
  key_path : Option String
  deriving DecidableEq, Repr

/-- A dist host entry of `cert.disthosts` as read by certdist.py:
`dh['jailroot']`, `dh['jails'].keys()` and `dh['places'].values()`. -/
structure DistHost where
  jailroot : String
  jails : List String
  places : List Place
  deriving DecidableEq, Repr

/-- The cert meta attributes that `deployCerts` reads. -/
structure DeployCertMeta where
  name : String
  subject_type : String
  cert_type : CertType
  disthosts : List (String × DistHost)
  tlsa_templates : List String
  authorized_until : Option Int
  deriving DecidableEq, Repr

/-- `opts.only_host`, `opts.skip_host`, `opts.no_TLSA` (certdist.py lines 48-57, 141). -/
structure DeployOpts where
  only_host : List String
  skip_host : List String
  no_TLSA : Bool
  deriving DecidableEq, Repr

/-- File name helpers of certdist.py lines 304-320. -/
def key_name (subject subject_type : String) : String :=
  subject ++ "_" ++ subject_type ++ "_key.pem"

def cert_name (subject subject_type : String) : String :=
  subject ++ "_" ++ subject_type ++ "_cert.pem"

def cert_cacert_name (subject subject_type : String) : String :=
  subject ++ "_" ++ subject_type ++ "_cert_cacert.pem"

def cert_cacert_chain_name (subject subject_type : String) : String :=
  subject ++ "_" ++ subject_type ++ "_cert_cacert_chain.pem"

def key_cert_name (subject subject_type : String) : String :=
  subject ++ "_" ++ subject_type ++ "_key_cert.pem"

def key_cert_cacert_name (subject subject_type : String) : String :=
  subject ++ "_" ++ subject_type ++ "_key_cert_cacert.pem"

/-- What a distributed file is concatenated from: the key text, the cert
text and the cacert text of the selected instance. -/
inductive Fragment
  | key | cert | cacert
  deriving DecidableEq, Repr

/-- The opening brace character, `\x7b`. -/
def braceOpen : Char := Char.ofNat 123

/-- The closing brace character, `\x7d`. -/
def braceClose : Char := Char.ofNat 125

/-- Python `'\x7b\x7d' in s` on the character list of `s`. -/
def hasBraces : List Char → Bool
  | [] => false
  | [_] => false
  | c1 :: c2 :: rest =>
    if c1 == braceOpen && c2 == braceClose then true
    else hasBraces (c2 :: rest)

/-- Python `s.format(name)` for a plain-brace-pair template: every
brace pair is replaced by `name`. -/
def replaceBraces (s : List Char) (name : List Char) : List Char :=
  match s with
  | [] => []
  | [c] => [c]
  | c1 :: c2 :: rest =>
    if c1 == braceOpen && c2 == braceClose then name ++ replaceBraces rest name
    else c1 :: replaceBraces (c2 :: rest) name

/-- `pcp = place.cert_path; if '\x7b\x7d' in pcp: pcp = pcp.format(cert.name)`
(certdist.py lines 105-107). -/
def formatCertPath (cert_path name : String) : String :=
  if hasBraces cert_path.toList then
    String.mk (replaceBraces cert_path.toList name.toList)
  else cert_path

/-- `PurePath(parts...)`: empty components vanish.  Paths are kept as
component lists. -/
def purePath (parts : List String) : List String :=
  parts.filter (fun s => s ≠ "")

/-- One observable step of `deployCerts`: a `distribute_cert` call with its
destination, file name, file content and jail argument; the per-CM TLSA
publication; the CI state update; the `authorized_until` clearing. -/
inductive DeployEvent
  | upload (fqdn : String) (dir : List String) (file : String)
      (content : List Fragment) (jail : Option String)
  | tlsa
  | setState (s : CertState)
  | clearAuthorizedUntil
  deriving DecidableEq, Repr

/-- Embedding of the per-place body of `deployCerts` (certdist.py lines
95-138): the `if place.key_path: ... elif place.cert_file_type == ...`
chain, followed by the unconditional `distribute_cert(fd_cert, fqdn,
dest_dir, cert_file_name, place, jail)` at line 138. -/
def placeFiles (cert : DeployCertMeta) (fqdn : String) (dest_path : List String)
    (jail : String) (place : Place) : List DeployEvent :=
  let key_file_name := key_name cert.name cert.subject_type
  let pcp := formatCertPath place.cert_path cert.name
  let dest_dir := purePath (dest_path ++ [pcp])
  let chain :=
    if cert.cert_type = CertType.LE then
      [DeployEvent.upload fqdn dest_dir (cert_cacert_chain_name cert.name cert.subject_type)
        [Fragment.cert, Fragment.cacert] (some jail)]
    else []
  let (pre, cert_file_name, cert_content) :=
    match place.key_path with
    | some kp =>
        ([DeployEvent.upload fqdn (purePath (dest_path ++ [kp])) key_file_name
            [Fragment.key] none],
         cert_name cert.name cert.subject_type, [Fragment.cert])
    | none =>
      match place.cert_file_type with
      | PlaceCertFileType.separate =>
          ([DeployEvent.upload fqdn dest_dir key_file_name [Fragment.key] none] ++ chain,
           cert_name cert.name cert.subject_type, [Fragment.cert])
      | PlaceCertFileType.combineKey =>
          (chain, key_cert_name cert.name cert.subject_type,
           [Fragment.key, Fragment.cert])
      | PlaceCertFileType.combineBoth =>
          ([], key_cert_cacert_name cert.name cert.subject_type,
           [Fragment.key, Fragment.cert, Fragment.cacert])
      | PlaceCertFileType.combineCacert =>
          ([DeployEvent.upload fqdn dest_dir key_file_name [Fragment.key] none],
           cert_cacert_name cert.name cert.subject_type,
           [Fragment.cert, Fragment.cacert])
      | PlaceCertFileType.certOnly =>
          ([], cert_name cert.name cert.subject_type, [Fragment.cert])
  pre ++ [DeployEvent.upload fqdn dest_dir cert_file_name cert_content (some jail)]

/-- The host filters of certdist.py lines 74-79: a host is omitted when it
is in `skip_host`, or when `only_host` is non-empty (`limit_hosts`) and the
host is not in it. -/
def hostOmittedBy (opts : DeployOpts) (fqdn : String) : Bool :=
  opts.skip_host.contains fqdn ||
    (!opts.only_host.isEmpty && !opts.only_host.contains fqdn)

/-- The per-host jail/place loops of certdist.py lines 84-138 for one
non-omitted dist host: `for jail in (dh['jails'].keys() or ('',))`, with
`jailroot` only effective for a non-empty jail; `none` models the
`return False` at line 93 when the dist host has no places. -/
def hostEvents (cert : DeployCertMeta) (fqdn : String) (dh : DistHost) :
    Option (List DeployEvent) :=
  let jails := if dh.jails.isEmpty then [""] else dh.jails
  if dh.places.isEmpty then none
  else some (jails.flatMap (fun jail =>
    let jailroot := if jail ≠ "" then dh.jailroot else ""
    let dest_path := purePath [jailroot, jail]
    dh.places.flatMap (placeFiles cert fqdn dest_path jail)))

/-- The host loop of certdist.py lines 72-138: accumulates events and the
`host_omitted` flag (set at lines 75 and 78, never reset within a CM);
`none` propagates the `return False` of the missing-place check. -/
def goHosts (opts : DeployOpts) (cert : DeployCertMeta) :
    List (String × DistHost) → Option (List DeployEvent × Bool)
  | [] => some ([], false)
  | (fqdn, dh) :: rest =>
    if hostOmittedBy opts fqdn then
      (goHosts opts cert rest).map (fun r => (r.1, true))
    else
      match hostEvents cert fqdn dh with
      | none => none
      | some hes => (goHosts opts cert rest).map (fun r => (hes ++ r.1, r.2))

/-- Result of the per-CM part of `deployCerts`: the ordered events, the
CI's final state, the CM's final `authorized_until` and the `host_omitted`
flag. -/
structure CMRunResult where
  events : List DeployEvent
  finalState : CertState
  final_authorized_until : Option Int
  host_omitted : Bool
  deriving DecidableEq, Repr

/-- Embedding of one iteration of the CM loop of `deployCerts`
(certdist.py lines 59-151), given the state `ciState` of the selected
valid instance: skip when `disthosts` is empty (line 61); walk the hosts;
then TLSA publication unless `no_TLSA` or no TLSA templates (lines
141-142, 339); promote the CI to `deployed` only when no host was omitted
(lines 144-149); clear `authorized_until` for local certs (line 151).
`none` models the `return False` abort on a placeless dist host. -/
def deployCM (opts : DeployOpts) (cert : DeployCertMeta) (ciState : CertState) :
    Option CMRunResult :=
  if cert.disthosts.isEmpty then
    some ⟨[], ciState, cert.authorized_until, false⟩
  else
    match goHosts opts cert cert.disthosts with
    | none => none
    | some (es, host_omitted) =>
      let tlsaEvents :=
        if !opts.no_TLSA && !cert.tlsa_templates.isEmpty then [DeployEvent.tlsa] else []
      let stateEvents :=
        if !host_omitted then [DeployEvent.setState CertState.deployed] else []
      let st' := if !host_omitted then CertState.deployed else ciState
      let authEvents :=
        if cert.cert_type = CertType.loc then [DeployEvent.clearAuthorizedUntil] else []
      let au' := if cert.cert_type = CertType.loc then none else cert.authorized_until
      some ⟨es ++ tlsaEvents ++ stateEvents ++ authEvents, st', au', host_omitted⟩

/-- Whether an event is a `distribute_cert` call. -/
def DeployEvent.isUpload : DeployEvent → Bool
  | DeployEvent.upload _ _ _ _ _ => true
  | _ => false

/-- The file name an event writes, if any. -/
def DeployEvent.fileOf : DeployEvent → Option String
  | DeployEvent.upload _ _ f _ _ => some f
  | _ => none

/-- Concrete cert meta for the C7 counterexample: an LE cert. -/
def certC7 : DeployCertMeta :=
  ⟨"a.example", "server", CertType.LE, [], [], none⟩

/-- Concrete place for the C7 counterexample: `cert_file_type = separate`
with `key_path` set. -/
def plC7 : Place :=
  ⟨"p", PlaceCertFileType.separate, "/etc/ssl", some "/kp"⟩

/-! ## ACME DNS-01 authorization: `_authorize` (pki/issue_LE.py lines 209-336) -/

/-- The terminal result of polling one fqdn's authorization until its status
leaves `pending` (issue_LE.py lines 280-307): either `valid` with the
server-provided expiry, or a terminal failure status (the fqdn joins the
`failed` set). -/
inductive AuthOutcome
  | valid (expires : Int)
  | failed
  deriving DecidableEq, Repr

/-- Observable steps of `_authorize`, in program order. -/
inductive AuthEvent
  | writeInclude (zone : String) (lines : List String)
  | updateZoneCache (zone : String)
  | updateSOA
  | reloadNameServer
  | validateChallenge (fqdn : String)
  | persistAuthorizedUntil (t : Option Int)
  | truncateInclude (zone : String)
  deriving DecidableEq, Repr

/-- One step of the zone grouping of issue_LE.py lines 243-247:
`zones[zone].append(fqdn)` when the zone is present, else
`zones[zone] = [fqdn]`; the dict is insertion-ordered. -/
def addZonePair (acc : List (String × List String)) (p : String × String) :
    List (String × List String) :=
  if acc.any (fun q => q.1 == p.1) then
    acc.map (fun q => if q.1 == p.1 then (q.1, q.2 ++ [p.2]) else q)
  else acc ++ [(p.1, [p.2])]

/-- The zone-to-fqdns dict of issue_LE.py lines 240-247, built left-to-right
over the `(zone, fqdn)` pairs. -/
def groupZones (pairs : List (String × String)) : List (String × List String) :=
  pairs.foldl addZonePair []

/-- One include line of issue_LE.py line 256. -/
def txtLine (fqdn txt : String) : String :=
  "_acme-challenge." ++ fqdn ++ ".  IN TXT  \"" ++ txt ++ "\"\n"

/-- The server-granted expiry of an outcome, if any. -/
def expiryOf (o : AuthOutcome) : Option Int :=
  match o with
  | AuthOutcome.valid e => some e
  | AuthOutcome.failed => none

/-- One fqdn's contribution to `authorized_until` (issue_LE.py lines
286-291): on `valid`, `if not authorized_until: authorized_until =
iso8601.parse_date(expires)` — recorded only when nothing is recorded yet. -/
def auStep (outcome : String → AuthOutcome) (acc : Option Int) (f : String) : Option Int :=
  match outcome f with
  | AuthOutcome.valid e => if acc.isNone then some e else acc
  | AuthOutcome.failed => acc

/-- The `authorized_until` value accumulated over the verification loop of
issue_LE.py lines 274-307, in FQDN order. -/
def authorizedUntilOf (FQDNs : List String) (outcome : String → AuthOutcome) : Option Int :=
  FQDNs.foldl (auStep outcome) none

/-- Embedding of `_authorize` (issue_LE.py lines 209-336) on its
non-exceptional paths (an ACME transport IOError raises ManualeError and is
outside this model).  Inputs: the cert meta's `name` and `altnames`; `txt`
gives each fqdn's computed TXT record (challenge token, account thumbprint,
sha256 and jose base64 are collaborator data folded into it); `pairs` is
the collaborator result of `zone_and_FQDN_from_altnames(cert_meta)` from
pki/utils; `outcome` is each fqdn's terminal polling result.  Output: the
ordered event trace, the boolean return value (lines 325-332), and the
persisted `authorized_until` (line 310). -/
def authorize (nm : String) (altnames : List String) (txt : String → String)
    (pairs : List (String × String)) (outcome : String → AuthOutcome) :
    List AuthEvent × Bool × Option Int :=
  let FQDNs := nm :: altnames
  let zones := groupZones pairs
  let writes := zones.flatMap (fun zf =>
    [AuthEvent.writeInclude zf.1 (zf.2.map (fun f => txtLine f (txt f))),
     AuthEvent.updateZoneCache zf.1])
  let polls := FQDNs.map AuthEvent.validateChallenge
  let au := authorizedUntilOf FQDNs outcome
  let cleanup := zones.flatMap (fun zf =>
    [AuthEvent.truncateInclude zf.1, AuthEvent.updateZoneCache zf.1])
  let ok := FQDNs.all (fun f =>
    match outcome f with
    | AuthOutcome.valid _ => true
    | AuthOutcome.failed => false)
  (writes ++ [AuthEvent.updateSOA, AuthEvent.reloadNameServer] ++ polls
    ++ [AuthEvent.persistAuthorizedUntil au] ++ cleanup
    ++ [AuthEvent.updateSOA, AuthEvent.reloadNameServer],
   ok, au)

/-- Outcomes for the C3 counterexample: both fqdns validate; the primary
name's expiry (10) is later than the altname's (5). -/
def outcomeC3 : String → AuthOutcome :=
  fun f => if f == "a.example" then AuthOutcome.valid 10 else AuthOutcome.valid 5

end ServerPKI

/-! # Theorems -/

namespace ServerPKI

/-- Helper: `List.find?` returns the first element satisfying the predicate. -/
theorem find?_first_match {α : Type} (p : α → Bool) (l : List α) (a : α)
    (h : l.find? p = some a) :
    ∃ l1 l2, l = l1 ++ a :: l2 ∧ p a = true ∧ ∀ x ∈ l1, p x = false := by
  induction l with
  | nil => simp [List.find?] at h
  | cons b t ih =>
    rcases hp : p b with _ | _
    · rw [List.find?_cons_of_neg _ (by simp [hp])] at h
      obtain ⟨l1, l2, hl, hpa, hl1⟩ := ih h
      exact ⟨b :: l1, l2, by simp [hl], hpa, by
        intro x hx
        rcases List.mem_cons.mp hx with rfl | hx
        · exact hp
        · exact hl1 x hx⟩
    · rw [List.find?_cons_of_pos _ hp] at h
      obtain rfl : b = a := by simpa using h
      exact ⟨[], t, rfl, hp, by simp⟩

/-- C2: the claim states `active(ci) ⇔ not_before ≤ now ≤ not_after` with both
endpoints inclusive.  The code (serverPKI/cert.py line 881) uses strict
comparisons, so a CI whose `not_before` equals `now` is NOT active: the claim
fails at `not_before = 0, not_after = 1, now = 0`. -/
theorem C2_active_endpoints_counterexample :
    ¬ ((CertInstanceTimes.active ⟨0, 1⟩ 0 = true) ↔ ((0 : Int) ≤ 0 ∧ (0 : Int) ≤ 1)) := by
  decide

/-- C2 (amended): for every CI and every time `now`,
`active(ci, now)` holds iff `not_before < now` and `now < not_after`
(both endpoints strict, i.e. exclusive). -/
theorem C2_active_iff_strict (ci : CertInstanceTimes) (now : Int) :
    ci.active now = true ↔ (ci.not_before < now ∧ now < ci.not_after) := by
  simp [CertInstanceTimes.active, and_comm]

/-- Witness for C2_active_iff_strict at a concrete input. -/
theorem C2_active_iff_strict_witness :
    CertInstanceTimes.active ⟨0, 2⟩ 1 = true :=
  (C2_active_iff_strict ⟨0, 2⟩ 1).mpr (by decide)

/-- C4: the claim states that each fqdn is paired with the LONGEST suffix
whose zone directory exists.  The code breaks out of the suffix loop at the
first (shortest) existing suffix: with zones `c` and `b.c` both existing,
fqdn `a.b.c` is paired with `c`, although `b.c` is a longer existing
suffix. -/
theorem C4_longest_suffix_counterexample :
    zone_and_FQDN_from_altnames exC4 ["a", "b", "c"] [] = [("c", "a.b.c")] ∧
    "b.c" ∈ suffixZones ["a", "b", "c"] ∧ exC4 "b.c" = true ∧
    ("c" : String).length < ("b.c" : String).length := by
  refine ⟨by decide, by decide, by decide, by decide⟩

/-- C4 (amended): each fqdn of `[name] ++ altnames` that has at least one
existing suffix is paired with the SHORTEST existing suffix — the first
match in the shortest-first enumeration `suffixZones`, every suffix tried
before it failing the existence test — and every emitted pair arises this
way (so a pair is emitted only when some suffix exists). -/
theorem C4_shortest_existing_suffix (ex : String → Bool)
    (name : List String) (altnames : List (List String)) :
    (∀ tags ∈ name :: altnames, ∀ z, zoneOf ex tags = some z →
      (z, joinLabels tags) ∈ zone_and_FQDN_from_altnames ex name altnames ∧
      ∃ l1 l2, suffixZones tags = l1 ++ z :: l2 ∧ ex z = true ∧
        ∀ z' ∈ l1, ex z' = false) ∧
    (∀ p ∈ zone_and_FQDN_from_altnames ex name altnames,
      ∃ tags ∈ name :: altnames, zoneOf ex tags = some p.1 ∧ p.2 = joinLabels tags) := by
  constructor
  · intro tags htags z hz
    refine ⟨?_, find?_first_match ex (suffixZones tags) z hz⟩
    exact List.mem_filterMap.mpr ⟨tags, htags, by simp [hz]⟩
  · intro p hp
    obtain ⟨tags, htags, hmap⟩ := List.mem_filterMap.mp hp
    simp only [Option.map_eq_some'] at hmap
    obtain ⟨z, hz, hpz⟩ := hmap
    subst hpz
    exact ⟨tags, htags, by simpa using hz, rfl⟩

/-- Witness for C4_shortest_existing_suffix at a concrete input: with only
zone `c` existing, fqdn `b.c` is paired with `c`. -/
theorem C4_shortest_existing_suffix_witness :
    ("c", "b.c") ∈ zone_and_FQDN_from_altnames exC4w ["b", "c"] [] :=
  (((C4_shortest_existing_suffix exC4w ["b", "c"] []).1 ["b", "c"]
    (by simp) "c" (by decide))).1

/-- C10: `create_instance` replaces a falsy `ocsp_ms` argument with the CM's
`ocsp_must_staple` flag: with the flag true, `ocsp_ms = False` still yields a CI
with `ocsp_ms = True`; a CI with `ocsp_ms = False` is only possible when the
CM's flag is itself false. -/
theorem C10_ocsp_falsy_fallback (cm : CertMetaOcsp) (o : Option Bool) :
    (cm.ocsp_must_staple = true → create_instance_ocsp cm (some false) = true) ∧
    (create_instance_ocsp cm o = false → cm.ocsp_must_staple = false) := by
  constructor
  · intro h
    simp [create_instance_ocsp, CertInstance_init_ocsp, pythonBoolOrElse, h]
  · intro h
    rcases hm : cm.ocsp_must_staple with _ | _
    · rfl
    · exfalso
      rcases o with _ | b
      · simp [create_instance_ocsp, CertInstance_init_ocsp, pythonBoolOrElse, hm] at h
      · cases b <;>
          simp [create_instance_ocsp, CertInstance_init_ocsp, pythonBoolOrElse, hm] at h

/-- Witness for C10_ocsp_falsy_fallback at concrete inputs. -/
theorem C10_ocsp_falsy_fallback_witness :
    create_instance_ocsp ⟨true⟩ (some false) = true :=
  (C10_ocsp_falsy_fallback ⟨true⟩ (some false)).1 rfl

/-- C6: every CertKeyStore's `hash` is the uppercase hex SHA-256 fingerprint
of the DER encoding of its certificate, the identity map keeps at most one
CertKeyStore per hash, and constructing a second CertKeyStore whose cert has
an already-registered hash fails. -/
theorem C6_cks_hash_identity (sha256 : List Nat → List Nat) (reg : CKSRegistry)
    (algo : EncAlgoCKS) (cert : X509Cert) (hinv : CKSRegInv sha256 reg) :
    (∀ cks reg', CertKeyStore_init sha256 reg algo cert = Except.ok (cks, reg') →
      cks.hash = hash_from_cert sha256 cks.cert ∧ CKSRegInv sha256 reg') ∧
    ((∃ p ∈ reg, p.1 = hash_from_cert sha256 cert) →
      ∃ e, CertKeyStore_init sha256 reg algo cert = Except.error e) := by
  constructor
  · intro cks reg' hok
    simp only [CertKeyStore_init] at hok
    rcases hany : reg.any (fun p => p.1 == hash_from_cert sha256 cert) with _ | _
    · rw [hany] at hok
      simp only [Bool.false_eq_true, if_false, Except.ok.injEq, Prod.mk.injEq] at hok
      obtain ⟨hcks, hreg'⟩ := hok
      subst hcks
      subst hreg'
      refine ⟨rfl, ?_, ?_⟩
      · refine List.nodup_cons.mpr ⟨?_, hinv.1⟩
        intro hmem
        obtain ⟨p, hp, hkey⟩ := List.mem_map.mp hmem
        have := List.any_eq_false.mp hany p hp
        simp only [beq_iff_eq] at this
        exact this hkey
      · intro p hp
        rcases List.mem_cons.mp hp with rfl | hp
        · exact ⟨rfl, rfl⟩
        · exact hinv.2 p hp
    · rw [hany] at hok
      simp at hok
  · intro ⟨p, hp, hkey⟩
    refine ⟨"Attempt to create duplicate CertKeyStore", ?_⟩
    simp only [CertKeyStore_init]
    have hany : reg.any (fun q => q.1 == hash_from_cert sha256 cert) = true :=
      List.any_eq_true.mpr ⟨p, hp, by simp [hkey]⟩
    rw [hany]
    simp

/-- Witness for C6_cks_hash_identity at concrete inputs: digest function
`id`, empty registry, an RSA store for a one-byte DER cert. -/
theorem C6_cks_hash_identity_witness :
    (⟨EncAlgoCKS.rsa, ⟨[0]⟩, "00"⟩ : CertKeyStore).hash
        = hash_from_cert (fun b => b) ⟨[0]⟩ ∧
    CKSRegInv (fun b => b) [("00", ⟨EncAlgoCKS.rsa, ⟨[0]⟩, "00"⟩)] :=
  (C6_cks_hash_identity (fun b => b) [] EncAlgoCKS.rsa ⟨[0]⟩
      ⟨by simp, by simp⟩).1 _ _ (by rfl)

/-- C8: looking a cert meta up twice by the same name returns the identical
in-memory Certificate object (and leaves the registry unchanged); the
registry keeps at most one Certificate per name; directly constructing a
second Certificate for an interned name fails. -/
theorem C8_cm_interning (st : CMRegistry) (name : String) :
    (∀ c1 st1, CM st name = Except.ok (c1, st1) →
      CM st1 name = Except.ok (c1, st1)) ∧
    (CMRegInv st → ∀ c1 st1, CM st name = Except.ok (c1, st1) → CMRegInv st1) ∧
    ((st.all_CMs.find? (fun p => p.1 == name)).isSome →
      ∃ e, Certificate_init st name = Except.error e) := by
  refine ⟨?_, ?_, ?_⟩
  · intro c1 st1 hok
    unfold CM at hok ⊢
    rcases hf : st.all_CMs.find? (fun p => p.1 == name) with _ | p
    · rw [hf] at hok
      unfold Certificate_init at hok
      rw [hf] at hok
      simp only [Option.isSome_none, Bool.false_eq_true, if_false,
        Except.ok.injEq, Prod.mk.injEq] at hok
      obtain ⟨hc1, hst1⟩ := hok
      subst hc1
      subst hst1
      simp [List.find?]
    · rw [hf] at hok
      simp only [Except.ok.injEq, Prod.mk.injEq] at hok
      obtain ⟨hc1, hst1⟩ := hok
      subst hc1
      subst hst1
      rw [hf]
  · intro hinv c1 st1 hok
    unfold CM at hok
    rcases hf : st.all_CMs.find? (fun p => p.1 == name) with _ | p
    · rw [hf] at hok
      unfold Certificate_init at hok
      rw [hf] at hok
      simp only [Option.isSome_none, Bool.false_eq_true, if_false,
        Except.ok.injEq, Prod.mk.injEq] at hok
      obtain ⟨hc1, hst1⟩ := hok
      subst hc1
      subst hst1
      refine ⟨List.nodup_cons.mpr ⟨?_, hinv.1⟩, ?_⟩
      · intro hmem
        obtain ⟨p, hp, hkey⟩ := List.mem_map.mp hmem
        have := List.find?_eq_none.mp hf p hp
        simp only [beq_iff_eq] at this
        exact this hkey
      · intro p hp
        rcases List.mem_cons.mp hp with rfl | hp
        · rfl
        · exact hinv.2 p hp
    · rw [hf] at hok
      simp only [Except.ok.injEq, Prod.mk.injEq] at hok
      obtain ⟨hc1, hst1⟩ := hok
      subst hst1
      exact hinv
  · intro hsome
    refine ⟨"Attempt to instantiate Certificate instance twice", ?_⟩
    unfold Certificate_init
    rw [hsome]
    simp

/-- Witness for C8_cm_interning at concrete inputs: loading `a.example`
into an empty registry, then looking it up again, returns the same object. -/
theorem C8_cm_interning_witness :
    CM ⟨[("a.example", ⟨"a.example", 0⟩)], 1⟩ "a.example"
      = Except.ok (⟨"a.example", 0⟩, ⟨[("a.example", ⟨"a.example", 0⟩)], 1⟩) :=
  (C8_cm_interning ⟨[], 0⟩ "a.example").1 ⟨"a.example", 0⟩
    ⟨[("a.example", ⟨"a.example", 0⟩)], 1⟩ (by rfl)

/-- Helper: every event produced by the per-place body is an upload. -/
theorem placeFiles_uploads (cert : DeployCertMeta) (fqdn : String)
    (dest_path : List String) (jail : String) (place : Place) :
    ∀ e ∈ placeFiles cert fqdn dest_path jail place, e.isUpload = true := by
  intro e he
  rcases place with ⟨pn, cft, cp, kp⟩
  rcases kp with _ | kp
  · rcases cft <;> by_cases hct : cert.cert_type = CertType.LE <;>
      simp [placeFiles, hct] at he <;>
      first
        | (obtain rfl := he; rfl)
        | (rcases he with rfl | rfl <;> rfl)
        | (rcases he with rfl | rfl | rfl <;> rfl)
  · simp [placeFiles] at he
    rcases he with rfl | rfl <;> rfl

/-- Helper: every event of a processed host is an upload. -/
theorem hostEvents_uploads (cert : DeployCertMeta) (fqdn : String) (dh : DistHost)
    (es : List DeployEvent) (h : hostEvents cert fqdn dh = some es) :
    ∀ e ∈ es, e.isUpload = true := by
  intro e he
  unfold hostEvents at h
  by_cases hp : dh.places.isEmpty
  · simp [hp] at h
  · simp only [hp, Bool.false_eq_true, if_false, Option.some.injEq] at h
    subst h
    obtain ⟨jail, _, hmem⟩ := List.mem_flatMap.mp he
    obtain ⟨pl, _, hmem2⟩ := List.mem_flatMap.mp hmem
    exact placeFiles_uploads cert fqdn _ jail pl e hmem2

/-- Helper: every event accumulated by the host loop is an upload. -/
theorem goHosts_uploads (opts : DeployOpts) (cert : DeployCertMeta) :
    ∀ hosts es om, goHosts opts cert hosts = some (es, om) →
      ∀ e ∈ es, e.isUpload = true := by
  intro hosts
  induction hosts with
  | nil =>
    intro es om h e he
    simp only [goHosts, Option.some.injEq, Prod.mk.injEq] at h
    rw [← h.1] at he
    simp at he
  | cons p rest ih =>
    intro es om h e he
    rcases p with ⟨fqdn, dh⟩
    unfold goHosts at h
    by_cases homit : hostOmittedBy opts fqdn = true
    · rw [if_pos homit] at h
      rcases hr : goHosts opts cert rest with _ | r
      · rw [hr] at h; simp at h
      · rw [hr] at h
        simp only [Option.map_some', Option.some.injEq] at h
        injection h with h1 h2
        subst h1
        exact ih r.1 r.2 (by rw [hr]) e he
    · rw [if_neg homit] at h
      rcases hh : hostEvents cert fqdn dh with _ | hes
      · rw [hh] at h; simp at h
      · rw [hh] at h
        rcases hr : goHosts opts cert rest with _ | r
        · rw [hr] at h; simp at h
        · rw [hr] at h
          simp only [Option.map_some', Option.some.injEq] at h
          injection h with h1 h2
          subst h1
          simp only [List.mem_append] at he
          rcases he with he | he
          · exact hostEvents_uploads cert fqdn dh hes hh e he
          · exact ih r.1 r.2 (by rw [hr]) e he

/-- Helper: the `host_omitted` flag returned by the host loop is true iff
some host of the list is omitted by the filters. -/
theorem goHosts_omitted (opts : DeployOpts) (cert : DeployCertMeta) :
    ∀ hosts es om, goHosts opts cert hosts = some (es, om) →
      (om = true ↔ ∃ p ∈ hosts, hostOmittedBy opts p.1 = true) := by
  intro hosts
  induction hosts with
  | nil =>
    intro es om h
    simp only [goHosts, Option.some.injEq, Prod.mk.injEq] at h
    rw [← h.2]
    simp
  | cons p rest ih =>
    intro es om h
    rcases p with ⟨fqdn, dh⟩
    unfold goHosts at h
    by_cases homit : hostOmittedBy opts fqdn = true
    · rw [if_pos homit] at h
      rcases hr : goHosts opts cert rest with _ | r
      · rw [hr] at h; simp at h
      · rw [hr] at h
        simp only [Option.map_some', Option.some.injEq, Prod.mk.injEq] at h
        constructor
        · intro _
          exact ⟨(fqdn, dh), by simp, homit⟩
        · intro _
          exact h.2.symm
    · rw [if_neg homit] at h
      rcases hh : hostEvents cert fqdn dh with _ | hes
      · rw [hh] at h; simp at h
      · rw [hh] at h
        rcases hr : goHosts opts cert rest with _ | r
        · rw [hr] at h; simp at h
        · rw [hr] at h
          simp only [Option.map_some', Option.some.injEq, Prod.mk.injEq] at h
          rw [← h.2]
          rw [ih r.1 r.2 (by rw [hr])]
          constructor
          · intro ⟨q, hq, hq2⟩
            exact ⟨q, by simp [hq], hq2⟩
          · intro ⟨q, hq, hq2⟩
            rcases List.mem_cons.mp hq with rfl | hq
            · exact absurd hq2 homit
            · exact ⟨q, hq, hq2⟩

/-- C1: in a per-CM run over non-empty `disthosts` with a valid selected CI
that reaches its post-CM step: if no host was omitted by the filters, the
CI state is set to `deployed` (and, with TLSA enabled and templates
present, the state update follows the TLSA publication); if at least one
host was omitted, the state is left unchanged and no state update occurs. -/
theorem C1_state_promotion (opts : DeployOpts) (cert : DeployCertMeta)
    (ciState : CertState) (r : CMRunResult)
    (hne : cert.disthosts ≠ [])
    (hrun : deployCM opts cert ciState = some r) :
    ((∀ p ∈ cert.disthosts, hostOmittedBy opts p.1 = false) →
      r.finalState = CertState.deployed ∧
      (opts.no_TLSA = false → cert.tlsa_templates ≠ [] →
        ∃ l1 l2, r.events = l1 ++ DeployEvent.tlsa ::
          DeployEvent.setState CertState.deployed :: l2)) ∧
    ((∃ p ∈ cert.disthosts, hostOmittedBy opts p.1 = true) →
      r.finalState = ciState ∧ ∀ s, DeployEvent.setState s ∉ r.events) := by
  unfold deployCM at hrun
  rw [if_neg (by simpa [List.isEmpty_iff] using hne)] at hrun
  rcases hg : goHosts opts cert cert.disthosts with _ | q
  · rw [hg] at hrun; simp at hrun
  · rw [hg] at hrun
    rcases q with ⟨es, om⟩
    simp only [Option.some.injEq] at hrun
    have homiff := goHosts_omitted opts cert cert.disthosts es om hg
    constructor
    · intro hall
      have hom : om = false := by
        rcases hof : om with _ | _
        · rfl
        · obtain ⟨p, hp, hpo⟩ := homiff.mp hof
          rw [hall p hp] at hpo
          exact absurd hpo (by simp)
      subst hom
      rw [← hrun]
      refine ⟨rfl, ?_⟩
      intro hnt htm
      refine ⟨es, (if cert.cert_type = CertType.loc
        then [DeployEvent.clearAuthorizedUntil] else []), ?_⟩
      simp [hnt, List.isEmpty_iff, htm]
    · intro hex
      have hom : om = true := homiff.mpr hex
      subst hom
      rw [← hrun]
      refine ⟨rfl, ?_⟩
      intro s hmem
      simp only [List.mem_append] at hmem
      rcases hmem with ((hmem | hmem) | hmem) | hmem
      · have := goHosts_uploads opts cert cert.disthosts es true hg _ hmem
        simp [DeployEvent.isUpload] at this
      · rcases hnt : (!opts.no_TLSA && !cert.tlsa_templates.isEmpty) with _ | _ <;>
          rw [hnt] at hmem <;> simp at hmem
      · simp at hmem
      · by_cases hct : cert.cert_type = CertType.loc <;>
          simp [hct] at hmem

/-- Witness for C1_state_promotion: one host, one place, `separate`,
no filters; the run promotes the CI to `deployed` after TLSA. -/
theorem C1_state_promotion_witness :
    (deployCM ⟨[], [], false⟩
        ⟨"a.example", "server", CertType.loc,
          [("h.example", ⟨"", [], [⟨"p", PlaceCertFileType.separate, "/etc/ssl", none⟩]⟩)],
          ["tlsa 3 0 1"], some 7⟩ CertState.issued).map CMRunResult.finalState
      = some CertState.deployed := by
  have h := (C1_state_promotion ⟨[], [], false⟩
      ⟨"a.example", "server", CertType.loc,
        [("h.example", ⟨"", [], [⟨"p", PlaceCertFileType.separate, "/etc/ssl", none⟩]⟩)],
        ["tlsa 3 0 1"], some 7⟩ CertState.issued
      ((deployCM ⟨[], [], false⟩
        ⟨"a.example", "server", CertType.loc,
          [("h.example", ⟨"", [], [⟨"p", PlaceCertFileType.separate, "/etc/ssl", none⟩]⟩)],
          ["tlsa 3 0 1"], some 7⟩ CertState.issued).get (by rfl))
      (by simp) (by rfl)).1 (by simp [hostOmittedBy])
  rw [Option.map_eq_some']
  exact ⟨_, (Option.some_get _).symm, h.1⟩

/-- C9: in a per-CM run over non-empty `disthosts` that reaches its
post-CM step, a local cert's `authorized_until` is cleared (in memory and
via the store update event); an LE cert's `authorized_until` is left
unmodified and no clearing event occurs. -/
theorem C9_authorized_until (opts : DeployOpts) (cert : DeployCertMeta)
    (ciState : CertState) (r : CMRunResult)
    (hne : cert.disthosts ≠ [])
    (hrun : deployCM opts cert ciState = some r) :
    (cert.cert_type = CertType.loc →
      r.final_authorized_until = none ∧
      DeployEvent.clearAuthorizedUntil ∈ r.events) ∧
    (cert.cert_type = CertType.LE →
      r.final_authorized_until = cert.authorized_until ∧
      DeployEvent.clearAuthorizedUntil ∉ r.events) := by
  unfold deployCM at hrun
  rw [if_neg (by simpa [List.isEmpty_iff] using hne)] at hrun
  rcases hg : goHosts opts cert cert.disthosts with _ | q
  · rw [hg] at hrun; simp at hrun
  · rw [hg] at hrun
    rcases q with ⟨es, om⟩
    simp only [Option.some.injEq] at hrun
    constructor
    · intro hct
      rw [← hrun]
      refine ⟨by simp [hct], ?_⟩
      simp [hct]
    · intro hct
      have hct' : ¬ cert.cert_type = CertType.loc := by
        rw [hct]; intro hc; cases hc
      rw [← hrun]
      refine ⟨by simp [hct'], ?_⟩
      intro hmem
      simp only [List.mem_append] at hmem
      rcases hmem with ((hmem | hmem) | hmem) | hmem
      · have := goHosts_uploads opts cert cert.disthosts es om hg _ hmem
        simp [DeployEvent.isUpload] at this
      · rcases hnt : (!opts.no_TLSA && !cert.tlsa_templates.isEmpty) with _ | _ <;>
          rw [hnt] at hmem <;> simp at hmem
      · rcases hos : (!om) with _ | _ <;> rw [hos] at hmem <;> simp at hmem
      · simp [hct'] at hmem

/-- Witness for C9_authorized_until: the local cert of the C1 witness run
ends with `authorized_until` cleared. -/
theorem C9_authorized_until_witness :
    (deployCM ⟨[], [], false⟩
        ⟨"a.example", "server", CertType.loc,
          [("h.example", ⟨"", [], [⟨"p", PlaceCertFileType.separate, "/etc/ssl", none⟩]⟩)],
          ["tlsa 3 0 1"], some 7⟩ CertState.issued).map
        CMRunResult.final_authorized_until = some none := by
  have h := (C9_authorized_until ⟨[], [], false⟩
      ⟨"a.example", "server", CertType.loc,
        [("h.example", ⟨"", [], [⟨"p", PlaceCertFileType.separate, "/etc/ssl", none⟩]⟩)],
        ["tlsa 3 0 1"], some 7⟩ CertState.issued
      ((deployCM ⟨[], [], false⟩
        ⟨"a.example", "server", CertType.loc,
          [("h.example", ⟨"", [], [⟨"p", PlaceCertFileType.separate, "/etc/ssl", none⟩]⟩)],
          ["tlsa 3 0 1"], some 7⟩ CertState.issued).get (by rfl))
      (by simp) (by rfl)).1 rfl
  rw [Option.map_eq_some']
  exact ⟨_, (Option.some_get _).symm, h.1⟩

/-- C7: the claim states that with `cert_file_type = separate`, `key_path`
set only moves the key file, every other file still being written — in
particular the LE chain file.  The code's `if place.key_path:` branch
short-circuits the whole `elif` chain, so with `key_path` set the chain
file is never written: counterexample with an LE cert. -/
theorem C7_chain_file_counterexample :
    certC7.cert_type = CertType.LE ∧
    plC7.cert_file_type = PlaceCertFileType.separate ∧
    plC7.key_path = some "/kp" ∧
    some (cert_cacert_chain_name certC7.name certC7.subject_type)
      ∉ (placeFiles certC7 "h.example" [] "" plC7).map DeployEvent.fileOf := by
  refine ⟨rfl, rfl, rfl, ?_⟩
  decide

/-- C7 (amended): for a place with `cert_file_type = separate` and
`key_path` unset, the engine writes the key file and the cert file to the
cert_path directory plus, for LE, the chain file (cert followed by cacert);
with `key_path` set, only the key file (to the key_path directory) and the
cert file (to the cert_path directory) are written — the chain file is
skipped even for LE. -/
theorem C7_separate_files (cert : DeployCertMeta) (fqdn : String)
    (dest_path : List String) (jail : String) (place : Place)
    (hsep : place.cert_file_type = PlaceCertFileType.separate) :
    (place.key_path = none →
      placeFiles cert fqdn dest_path jail place =
        [DeployEvent.upload fqdn
            (purePath (dest_path ++ [formatCertPath place.cert_path cert.name]))
            (key_name cert.name cert.subject_type) [Fragment.key] none] ++
        (if cert.cert_type = CertType.LE then
          [DeployEvent.upload fqdn
            (purePath (dest_path ++ [formatCertPath place.cert_path cert.name]))
            (cert_cacert_chain_name cert.name cert.subject_type)
            [Fragment.cert, Fragment.cacert] (some jail)]
         else []) ++
        [DeployEvent.upload fqdn
            (purePath (dest_path ++ [formatCertPath place.cert_path cert.name]))
            (cert_name cert.name cert.subject_type) [Fragment.cert] (some jail)]) ∧
    (∀ kp, place.key_path = some kp →
      placeFiles cert fqdn dest_path jail place =
        [DeployEvent.upload fqdn (purePath (dest_path ++ [kp]))
            (key_name cert.name cert.subject_type) [Fragment.key] none,
         DeployEvent.upload fqdn
            (purePath (dest_path ++ [formatCertPath place.cert_path cert.name]))
            (cert_name cert.name cert.subject_type) [Fragment.cert] (some jail)]) := by
  rcases place with ⟨pn, cft, cp, kp⟩
  simp only at hsep
  subst hsep
  constructor
  · intro hkp
    simp only at hkp
    subst hkp
    by_cases hct : cert.cert_type = CertType.LE <;>
      simp [placeFiles, hct]
  · intro kp' hkp
    simp only at hkp
    subst hkp
    simp [placeFiles]

/-- Witness for C7_separate_files at the concrete counterexample inputs:
with `key_path = /kp`, exactly the key file (to `/kp`) and the plain cert
file are written. -/
theorem C7_separate_files_witness :
    placeFiles certC7 "h.example" [] "" plC7 =
      [DeployEvent.upload "h.example" (purePath ["/kp"])
          (key_name "a.example" "server") [Fragment.key] none,
       DeployEvent.upload "h.example" (purePath ["/etc/ssl"])
          (cert_name "a.example" "server") [Fragment.cert] (some "")] := by
  have h := (C7_separate_files certC7 "h.example" [] "" plC7 rfl).2 "/kp" rfl
  simpa [certC7, plC7, formatCertPath] using h

/-- Helper: once `authorized_until` is recorded, later fqdns never
overwrite it. -/
theorem auStep_foldl_some (outcome : String → AuthOutcome) (x : Int) :
    ∀ l : List String, l.foldl (auStep outcome) (some x) = some x := by
  intro l
  induction l with
  | nil => rfl
  | cons f t ih =>
    have hstep : auStep outcome (some x) f = some x := by
      unfold auStep
      rcases outcome f with e | _ <;> simp
    rw [List.foldl_cons, hstep, ih]

/-- Helper: the accumulated `authorized_until` is the expiry of the FIRST
fqdn (in list order) whose outcome is `valid`. -/
theorem authorizedUntilOf_head (outcome : String → AuthOutcome) :
    ∀ l : List String,
      authorizedUntilOf l outcome =
        (l.filterMap (fun f => expiryOf (outcome f))).head? := by
  intro l
  induction l with
  | nil => rfl
  | cons f t ih =>
    unfold authorizedUntilOf at ih ⊢
    rw [List.foldl_cons]
    rcases h : outcome f with e | _
    · have hstep : auStep outcome none f = some e := by
        unfold auStep
        rw [h]
        rfl
      rw [hstep, auStep_foldl_some]
      simp [List.filterMap_cons, h, expiryOf]
    · have hstep : auStep outcome none f = none := by
        unfold auStep
        rw [h]
      rw [hstep, ih]
      simp [List.filterMap_cons, h, expiryOf]

/-- C3: the claim states that on all-valid authorization the persisted
`authorized_until` is the minimum expiry over the FQDNs.  The code records
only the first validated fqdn's expiry (`if not authorized_until:`), so
with expiries 10 (for the name) and 5 (for the altname) it persists 10,
not the minimum 5. -/
theorem C3_min_expiry_counterexample :
    (authorize "a.example" ["b.example"] (fun _ => "t") [] outcomeC3).2.2 = some 10 ∧
    outcomeC3 "a.example" = AuthOutcome.valid 10 ∧
    outcomeC3 "b.example" = AuthOutcome.valid 5 ∧
    min (10 : Int) 5 = 5 ∧
    (authorize "a.example" ["b.example"] (fun _ => "t") [] outcomeC3).2.2 ≠ some 5 := by
  refine ⟨by decide, by decide, by decide, by decide, by decide⟩

/-- C3 (amended): the value persisted as `authorized_until` is the
server-provided expiry of the FIRST fqdn of `[name] ++ altnames` to reach
`valid` (the head of the granted expiries in FQDN order) — not the minimum
over all FQDNs; in particular, when every FQDN validates, it is the
primary name's expiry. -/
theorem C3_first_valid_expiry (nm : String) (altnames : List String)
    (txt : String → String) (pairs : List (String × String))
    (outcome : String → AuthOutcome) :
    (authorize nm altnames txt pairs outcome).2.2 =
      ((nm :: altnames).filterMap (fun f => expiryOf (outcome f))).head? ∧
    AuthEvent.persistAuthorizedUntil
        (((nm :: altnames).filterMap (fun f => expiryOf (outcome f))).head?)
      ∈ (authorize nm altnames txt pairs outcome).1 := by
  have hau := authorizedUntilOf_head outcome (nm :: altnames)
  have htrace : (authorize nm altnames txt pairs outcome).1 =
      (groupZones pairs).flatMap (fun zf =>
        [AuthEvent.writeInclude zf.1 (zf.2.map (fun f => txtLine f (txt f))),
         AuthEvent.updateZoneCache zf.1])
      ++ [AuthEvent.updateSOA, AuthEvent.reloadNameServer]
      ++ (nm :: altnames).map AuthEvent.validateChallenge
      ++ [AuthEvent.persistAuthorizedUntil (authorizedUntilOf (nm :: altnames) outcome)]
      ++ (groupZones pairs).flatMap (fun zf =>
            [AuthEvent.truncateInclude zf.1, AuthEvent.updateZoneCache zf.1])
      ++ [AuthEvent.updateSOA, AuthEvent.reloadNameServer] := by rfl
  simp only [List.append_assoc] at htrace
  constructor
  · simpa [authorize] using hau
  · rw [htrace]
    refine List.mem_append.mpr (Or.inr ?_)
    refine List.mem_append.mpr (Or.inr ?_)
    refine List.mem_append.mpr (Or.inr ?_)
    refine List.mem_append.mpr (Or.inl ?_)
    simp [hau]

/-- C5: in every (non-exception) execution of `_authorize` — whatever the
per-FQDN outcomes — every zone whose include file was written in step 3 has
its include file truncated before the routine returns, and the trace ends
with the full teardown: per-zone truncation and re-caching, then the SOA
bump and the second name-server reload. -/
theorem C5_teardown_mandatory (nm : String) (altnames : List String)
    (txt : String → String) (pairs : List (String × String))
    (outcome : String → AuthOutcome) :
    (∀ z lines, AuthEvent.writeInclude z lines ∈ (authorize nm altnames txt pairs outcome).1 →
      AuthEvent.truncateInclude z ∈ (authorize nm altnames txt pairs outcome).1) ∧
    (∃ pre, (authorize nm altnames txt pairs outcome).1 =
      pre ++ (groupZones pairs).flatMap
          (fun zf => [AuthEvent.truncateInclude zf.1, AuthEvent.updateZoneCache zf.1])
        ++ [AuthEvent.updateSOA, AuthEvent.reloadNameServer]) := by
  have htrace : (authorize nm altnames txt pairs outcome).1 =
      (groupZones pairs).flatMap (fun zf =>
        [AuthEvent.writeInclude zf.1 (zf.2.map (fun f => txtLine f (txt f))),
         AuthEvent.updateZoneCache zf.1])
      ++ [AuthEvent.updateSOA, AuthEvent.reloadNameServer]
      ++ (nm :: altnames).map AuthEvent.validateChallenge
      ++ [AuthEvent.persistAuthorizedUntil (authorizedUntilOf (nm :: altnames) outcome)]
      ++ (groupZones pairs).flatMap (fun zf =>
            [AuthEvent.truncateInclude zf.1, AuthEvent.updateZoneCache zf.1])
      ++ [AuthEvent.updateSOA, AuthEvent.reloadNameServer] := by rfl
  simp only [List.append_assoc] at htrace
  constructor
  · intro z lines hmem
    rw [htrace] at hmem
    rcases List.mem_append.mp hmem with hmem | hmem
    · obtain ⟨zf, hzf, hin⟩ := List.mem_flatMap.mp hmem
      simp only [List.mem_cons, List.not_mem_nil, or_false] at hin
      rcases hin with hin | hin
      · injection hin with hz hlines
        subst hz
        rw [htrace]
        refine List.mem_append.mpr (Or.inr ?_)
        refine List.mem_append.mpr (Or.inr ?_)
        refine List.mem_append.mpr (Or.inr ?_)
        refine List.mem_append.mpr (Or.inr ?_)
        refine List.mem_append.mpr (Or.inl ?_)
        exact List.mem_flatMap.mpr ⟨zf, hzf, by simp⟩
      · exact absurd hin (by simp)
    rcases List.mem_append.mp hmem with hmem | hmem
    · simp at hmem
    rcases List.mem_append.mp hmem with hmem | hmem
    · obtain ⟨f, _, hin⟩ := List.mem_map.mp hmem
      exact absurd hin.symm (by simp)
    rcases List.mem_append.mp hmem with hmem | hmem
    · simp at hmem
    rcases List.mem_append.mp hmem with hmem | hmem
    · obtain ⟨zf, hzf, hin⟩ := List.mem_flatMap.mp hmem
      simp at hin
    · simp at hmem
  · refine ⟨(groupZones pairs).flatMap
        (fun zf => [AuthEvent.writeInclude zf.1 (zf.2.map (fun f => txtLine f (txt f))),
          AuthEvent.updateZoneCache zf.1])
      ++ [AuthEvent.updateSOA, AuthEvent.reloadNameServer]
      ++ (nm :: altnames).map AuthEvent.validateChallenge
      ++ [AuthEvent.persistAuthorizedUntil
            (authorizedUntilOf (nm :: altnames) outcome)], ?_⟩
    rw [htrace]
    simp

/-- Witness for C5_teardown_mandatory at a concrete input: a run whose only
fqdn FAILS authorization still truncates the touched zone's include file. -/
theorem C5_teardown_mandatory_witness :
    AuthEvent.truncateInclude "zone1" ∈
      (authorize "a.zone1" [] (fun _ => "t") [("zone1", "a.zone1")]
        (fun _ => AuthOutcome.failed)).1 :=
  (C5_teardown_mandatory "a.zone1" [] (fun _ => "t") [("zone1", "a.zone1")]
      (fun _ => AuthOutcome.failed)).1 "zone1"
    [txtLine "a.zone1" "t"] (by decide)

end ServerPKI
